import Mathlib

/-!
Verification of the tick-range survival engine and price-history builder.

This file shallowly embeds the algorithmic core of the repository
(`survival_km.py`, `backend/survival_km.py`, `backend/survival_km_v3.py`):
tick discretization, per-sample right-censored survival construction,
recommendation gating, the cached price-history builder, the
block-timestamp resolver, and the per-run block-lookup memoization.
Timestamps are modelled as integer epoch seconds (the Python code uses
pandas datetimes with second resolution), prices and durations as
rationals, and the price-to-tick logarithm over the reals.
-/

/-! ## Tick series rows (the `timestamp`/`tick` columns read by `compute_survival`) -/

/-- One row of the ticked DataFrame as consumed by `compute_survival`:
the `timestamp` column (epoch seconds) and the integer `tick` column. -/
structure TickRow where
  ts : ℤ
  tick : ℤ
deriving DecidableEq

instance : Inhabited TickRow := ⟨⟨0, 0⟩⟩

/-- `timestamps[j]` of the series (out-of-range reads return the default row,
never reached by the embedded code). -/
def tsAt (rows : List TickRow) (j : ℕ) : ℤ :=
  (rows.getD j default).ts

/-- `ticks[j]` of the series. -/
def tickAt (rows : List TickRow) (j : ℕ) : ℤ :=
  (rows.getD j default).tick

/-- `last_time = timestamps[-1]`, i.e. the timestamp at index `n - 1`. -/
def lastTs (rows : List TickRow) : ℤ :=
  tsAt rows (rows.length - 1)

/-- The forward scan of `compute_survival`:
`j = i+1; while j < n and timestamps[j] <= limit_time: if tick outside band: break`.
Returns the index of the first in-horizon breach, if any. -/
def scanExitFrom (rows : List TickRow) (lower upper limit : ℤ) (j : ℕ) : Option ℕ :=
  if _h : j < rows.length then
    if tsAt rows j ≤ limit then
      if tickAt rows j < lower ∨ upper < tickAt rows j then some j
      else scanExitFrom rows lower upper limit (j + 1)
    else none
  else none
termination_by rows.length - j

/-- The per-index survival observation produced by `compute_survival`:
`duration_hours`, `event` (`true` ↔ the Python `event = 1`), `has_full` and
the exit timestamp. -/
structure SurvSample where
  durationH : ℚ
  event : Bool
  hasFull : Bool
  exitTs : ℤ
deriving DecidableEq

/-- Body of the `for i in range(n)` loop of `compute_survival`: the sample for
start index `i`, tick window half-width `W` and horizon `H` hours
(`horizon_delta = int(horizon_hours * 3600)` seconds). -/
def survivalSample (rows : List TickRow) (W : ℤ) (H : ℕ) (i : ℕ) : SurvSample :=
  let ti := tsAt rows i
  let center := tickAt rows i
  let limit := ti + (H : ℤ) * 3600
  let hasFull : Bool := decide (limit ≤ lastTs rows)
  match scanExitFrom rows (center - W) (center + W) limit (i + 1) with
  | some j =>
    { durationH := ((tsAt rows j - ti : ℤ) : ℚ) / 3600
      event := true
      hasFull := hasFull
      exitTs := tsAt rows j }
  | none =>
    let e := if hasFull then limit else lastTs rows
    { durationH := ((e - ti : ℤ) : ℚ) / 3600
      event := false
      hasFull := hasFull
      exitTs := e }

/-! ### Characterization of the forward scan -/

/-- If the scan starting at `j` returns index `k`, then `k` is in range, within the
horizon, strictly outside the band, and every index between `j` and `k` was visited,
found within the horizon and inside the band. -/
theorem scanExitFrom_eq_some {rows : List TickRow} {lower upper limit : ℤ} :
    ∀ j k, scanExitFrom rows lower upper limit j = some k →
      j ≤ k ∧ k < rows.length ∧ tsAt rows k ≤ limit ∧
        (tickAt rows k < lower ∨ upper < tickAt rows k) ∧
        ∀ m, j ≤ m → m < k →
          tsAt rows m ≤ limit ∧ ¬(tickAt rows m < lower ∨ upper < tickAt rows m) := by
  have main : ∀ fuel j k, rows.length - j ≤ fuel →
      scanExitFrom rows lower upper limit j = some k →
      j ≤ k ∧ k < rows.length ∧ tsAt rows k ≤ limit ∧
        (tickAt rows k < lower ∨ upper < tickAt rows k) ∧
        ∀ m, j ≤ m → m < k →
          tsAt rows m ≤ limit ∧ ¬(tickAt rows m < lower ∨ upper < tickAt rows m) := by
    intro fuel
    induction fuel with
    | zero =>
      intro j k hfuel hscan
      rw [scanExitFrom] at hscan
      rw [dif_neg (by omega)] at hscan
      exact absurd hscan (by simp)
    | succ f ih =>
      intro j k hfuel hscan
      rw [scanExitFrom] at hscan
      by_cases hj : j < rows.length
      · rw [dif_pos hj] at hscan
        by_cases hts : tsAt rows j ≤ limit
        · rw [if_pos hts] at hscan
          by_cases hout : tickAt rows j < lower ∨ upper < tickAt rows j
          · rw [if_pos hout] at hscan
            obtain rfl : j = k := by simpa using hscan
            exact ⟨le_refl _, hj, hts, hout, fun m hm hmk => absurd (lt_of_le_of_lt hm hmk) (lt_irrefl _)⟩
          · rw [if_neg hout] at hscan
            obtain ⟨h1, h2, h3, h4, h5⟩ := ih (j + 1) k (by omega) hscan
            refine ⟨by omega, h2, h3, h4, fun m hm hmk => ?_⟩
            rcases Nat.eq_or_lt_of_le hm with rfl | hm'
            · exact ⟨hts, hout⟩
            · exact h5 m (by omega) hmk
        · rw [if_neg hts] at hscan
          exact absurd hscan (by simp)
      · rw [dif_neg hj] at hscan
        exact absurd hscan (by simp)
  exact fun j k => main (rows.length - j) j k (le_refl _)

/-- If the scan starting at `j` returns no index and the timestamp column is
non-decreasing in the index, then no index from `j` on is an in-horizon breach. -/
theorem scanExitFrom_eq_none {rows : List TickRow} {lower upper limit : ℤ}
    (hmono : ∀ a b, a ≤ b → b < rows.length → tsAt rows a ≤ tsAt rows b) :
    ∀ j, scanExitFrom rows lower upper limit j = none →
      ∀ m, j ≤ m → m < rows.length → tsAt rows m ≤ limit →
        ¬(tickAt rows m < lower ∨ upper < tickAt rows m) := by
  have main : ∀ fuel j, rows.length - j ≤ fuel →
      scanExitFrom rows lower upper limit j = none →
      ∀ m, j ≤ m → m < rows.length → tsAt rows m ≤ limit →
        ¬(tickAt rows m < lower ∨ upper < tickAt rows m) := by
    intro fuel
    induction fuel with
    | zero =>
      intro j hfuel _ m hjm hm _
      omega
    | succ f ih =>
      intro j hfuel hscan m hjm hm hts
      rw [scanExitFrom] at hscan
      by_cases hj : j < rows.length
      · rw [dif_pos hj] at hscan
        by_cases htsj : tsAt rows j ≤ limit
        · rw [if_pos htsj] at hscan
          by_cases hout : tickAt rows j < lower ∨ upper < tickAt rows j
          · rw [if_pos hout] at hscan
            exact absurd hscan (by simp)
          · rw [if_neg hout] at hscan
            rcases Nat.eq_or_lt_of_le hjm with rfl | hm'
            · exact hout
            · exact ih (j + 1) (by omega) hscan m (by omega) hm hts
        · rw [if_neg htsj] at hscan
          intro _
          exact absurd hts (not_le.mpr (lt_of_lt_of_le (not_le.mp htsj) (hmono j m hjm hm)))
      · omega
  exact fun j => main (rows.length - j) j (le_refl _)

/-- `tsAt` agrees with direct indexing on in-range indices. -/
theorem tsAt_eq_getElem (rows : List TickRow) (a : ℕ) (h : a < rows.length) :
    tsAt rows a = rows[a].ts := by
  simp [tsAt, List.getD_eq_getElem?_getD, List.getElem?_eq_getElem h]

/-- A series sorted ascending by timestamp has a monotone timestamp column. -/
theorem tsAt_mono_of_sorted {rows : List TickRow}
    (hsort : rows.Pairwise (fun a b => a.ts ≤ b.ts)) :
    ∀ a b, a ≤ b → b < rows.length → tsAt rows a ≤ tsAt rows b := by
  intro a b hab hb
  rcases eq_or_lt_of_le hab with rfl | h
  · exact le_refl _
  · rw [tsAt_eq_getElem rows a (lt_trans h hb), tsAt_eq_getElem rows b hb]
    exact List.pairwise_iff_getElem.mp hsort a b (lt_trans h hb) hb h

/-- Index `m` is an in-horizon band breach for the sample started at index `i`:
`m` lies after `i`, inside the series, its timestamp is at most
`limit_time = timestamp[i] + H hours`, and its tick is strictly outside
`[tick[i] - W, tick[i] + W]`. -/
def breachesBand (rows : List TickRow) (W : ℤ) (H : ℕ) (i m : ℕ) : Prop :=
  i < m ∧ m < rows.length ∧ tsAt rows m ≤ tsAt rows i + (H : ℤ) * 3600 ∧
    (tickAt rows m < tickAt rows i - W ∨ tickAt rows i + W < tickAt rows m)

instance (rows : List TickRow) (W : ℤ) (H : ℕ) (i m : ℕ) :
    Decidable (breachesBand rows W H i m) := by
  unfold breachesBand; infer_instance

/-- Concrete series from the spec scenario: 5 hourly points, all ticks `10`. -/
def sampleRows : List TickRow :=
  [⟨0, 10⟩, ⟨3600, 10⟩, ⟨7200, 10⟩, ⟨10800, 10⟩, ⟨14400, 10⟩]

/-- C1: per-sample censoring semantics of `compute_survival`. For a series sorted
ascending by timestamp and a start index `i`: if a least in-horizon breach index `j`
exists, the sample records `event = 1` with `exit_time = timestamp[j]`; if none
exists, `event = 0` and `exit_time` is `limit_time` when `limit_time ≤ last_time`,
else `last_time`; and `duration_hours = (exit_time - timestamp[i])` in hours. -/
theorem survival_censoring_semantics (rows : List TickRow) (W : ℤ) (H : ℕ) (i : ℕ)
    (hsort : rows.Pairwise (fun a b => a.ts ≤ b.ts)) (_hi : i < rows.length) :
    (∀ j, IsLeast {m | breachesBand rows W H i m} j →
        (survivalSample rows W H i).event = true ∧
        (survivalSample rows W H i).exitTs = tsAt rows j) ∧
    ((¬ ∃ j, breachesBand rows W H i j) →
        (survivalSample rows W H i).event = false ∧
        (survivalSample rows W H i).exitTs =
          (if tsAt rows i + (H : ℤ) * 3600 ≤ lastTs rows
           then tsAt rows i + (H : ℤ) * 3600 else lastTs rows)) ∧
    (survivalSample rows W H i).durationH =
      (((survivalSample rows W H i).exitTs - tsAt rows i : ℤ) : ℚ) / 3600 := by
  have hmono := tsAt_mono_of_sorted hsort
  cases hscan : scanExitFrom rows (tickAt rows i - W) (tickAt rows i + W)
      (tsAt rows i + (H : ℤ) * 3600) (i + 1) with
  | some k =>
    obtain ⟨h1, h2, h3, h4, h5⟩ := scanExitFrom_eq_some (i + 1) k hscan
    refine ⟨?_, ?_, ?_⟩
    · intro j hleast
      obtain ⟨⟨hij, hjn, hjts, hjout⟩, hlb⟩ := hleast
      have hjk : j ≤ k := hlb ⟨by omega, h2, h3, h4⟩
      have hkj : k = j := by
        rcases eq_or_lt_of_le hjk with rfl | hlt
        · rfl
        · exact absurd hjout ((h5 j (by omega) hlt).2)
      subst hkj
      simp [survivalSample, hscan]
    · intro hno
      exact absurd ⟨k, by omega, h2, h3, h4⟩ hno
    · simp [survivalSample, hscan]
  | none =>
    refine ⟨?_, ?_, ?_⟩
    · intro j hleast
      obtain ⟨⟨hij, hjn, hjts, hjout⟩, _⟩ := hleast
      exact absurd hjout
        (scanExitFrom_eq_none hmono (i + 1) hscan j (by omega) hjn hjts)
    · intro _
      constructor
      · simp [survivalSample, hscan]
      · by_cases hfull : tsAt rows i + (H : ℤ) * 3600 ≤ lastTs rows
        · simp [survivalSample, hscan, hfull]
        · simp [survivalSample, hscan, hfull]
    · by_cases hfull : tsAt rows i + (H : ℤ) * 3600 ≤ lastTs rows
      · simp [survivalSample, hscan, hfull]
      · simp [survivalSample, hscan, hfull]

/-- C1 witness: the spec scenario (ticks all `10`, `W = 5`, `H = 3`, start index 0)
is censored with a full 3-hour follow-up. -/
theorem survival_censoring_semantics_witness :
    (survivalSample sampleRows 5 3 0).event = false ∧
      (survivalSample sampleRows 5 3 0).durationH = 3 := by
  have h := survival_censoring_semantics sampleRows 5 3 0 (by decide) (by decide)
  have hno : ¬ ∃ j, breachesBand sampleRows 5 3 0 j := by
    rintro ⟨j, hj⟩
    have hlen : j < 5 := by simpa [sampleRows] using hj.2.1
    have h0 : 0 < j := hj.1
    interval_cases j <;> revert hj <;> decide
  obtain ⟨-, h2, h3⟩ := h
  obtain ⟨hev, hexit⟩ := h2 hno
  refine ⟨hev, ?_⟩
  rw [h3, hexit]
  norm_num [lastTs, tsAt, sampleRows]

/-- C9: for a series sorted ascending by timestamp, every sample produced by
`compute_survival` has `0 ≤ duration_hours ≤ H`. -/
theorem survival_duration_bounds (rows : List TickRow) (W : ℤ) (H : ℕ) (i : ℕ)
    (hsort : rows.Pairwise (fun a b => a.ts ≤ b.ts)) (hi : i < rows.length)
    (hH : 0 < H) :
    0 ≤ (survivalSample rows W H i).durationH ∧
      (survivalSample rows W H i).durationH ≤ (H : ℚ) := by
  have hmono := tsAt_mono_of_sorted hsort
  have hn : 0 < rows.length := by omega
  cases hscan : scanExitFrom rows (tickAt rows i - W) (tickAt rows i + W)
      (tsAt rows i + (H : ℤ) * 3600) (i + 1) with
  | some k =>
    obtain ⟨h1, h2, h3, -, -⟩ := scanExitFrom_eq_some (i + 1) k hscan
    have hik : tsAt rows i ≤ tsAt rows k := hmono i k (by omega) h2
    simp only [survivalSample, hscan]
    constructor
    · apply div_nonneg _ (by norm_num)
      exact_mod_cast sub_nonneg.mpr hik
    · rw [div_le_iff₀ (by norm_num : (0:ℚ) < 3600)]
      have hb : (tsAt rows k - tsAt rows i : ℤ) ≤ (H : ℤ) * 3600 := by omega
      calc ((tsAt rows k - tsAt rows i : ℤ) : ℚ) ≤ (((H : ℤ) * 3600 : ℤ) : ℚ) := by
              exact_mod_cast hb
        _ = (H : ℚ) * 3600 := by push_cast; ring
  | none =>
    have hil : tsAt rows i ≤ lastTs rows := hmono i (rows.length - 1) (by omega) (by omega)
    by_cases hfull : tsAt rows i + (H : ℤ) * 3600 ≤ lastTs rows
    · simp only [survivalSample, hscan]
      rw [if_pos (decide_eq_true hfull),
        (show tsAt rows i + (H : ℤ) * 3600 - tsAt rows i = (H : ℤ) * 3600 by ring)]
      constructor
      · positivity
      · rw [div_le_iff₀ (by norm_num : (0:ℚ) < 3600)]
        push_cast
        ring_nf
        exact le_refl _
    · simp only [survivalSample, hscan]
      rw [if_neg (by simpa using hfull)]
      have hlt : lastTs rows < tsAt rows i + (H : ℤ) * 3600 := not_le.mp hfull
      constructor
      · apply div_nonneg _ (by norm_num)
        exact_mod_cast sub_nonneg.mpr hil
      · rw [div_le_iff₀ (by norm_num : (0:ℚ) < 3600)]
        have hb : (lastTs rows - tsAt rows i : ℤ) ≤ (H : ℤ) * 3600 := by omega
        calc ((lastTs rows - tsAt rows i : ℤ) : ℚ) ≤ (((H : ℤ) * 3600 : ℤ) : ℚ) := by
                exact_mod_cast hb
          _ = (H : ℚ) * 3600 := by push_cast; ring

/-- C9 witness: duration bounds at the concrete scenario series, `W = 5`, `H = 3`,
start index 2. -/
theorem survival_duration_bounds_witness :
    0 ≤ (survivalSample sampleRows 5 3 2).durationH ∧
      (survivalSample sampleRows 5 3 2).durationH ≤ (3 : ℚ) := by
  have h := survival_duration_bounds sampleRows 5 3 2 (by decide) (by decide) (by decide)
  exact_mod_cast h

/-! ## Aggregate metrics of a `(W, H)` cell (`compute_survival` return value) -/

/-- Truncation toward zero, the semantics of Python `int()` on a float/rational. -/
def truncQ (q : ℚ) : ℤ :=
  if q < 0 then -⌊-q⌋ else ⌊q⌋

/-- `int(np.median(ticks))`: sort, take the middle element for odd length, or the
truncated average of the two middle elements for even length. -/
def medianTick (ticks : List ℤ) : ℤ :=
  let s := ticks.insertionSort (fun a b => a ≤ b)
  if s.length % 2 = 1 then s.getD (s.length / 2) 0
  else truncQ (((s.getD (s.length / 2 - 1) 0 : ℚ) + (s.getD (s.length / 2) 0 : ℚ)) / 2)

/-- Modelled from the spec: the Kaplan-Meier fit is performed by the external
`lifelines` library (not part of this repository); the spec (§4.3, glossary)
describes the standard product-limit estimator with step-function semantics.
Distinct observed event times, ascending. -/
def kmEventTimes (samples : List (ℚ × Bool)) : List ℚ :=
  (((samples.filter (fun s => s.2)).map (fun s => s.1)).dedup).insertionSort
    (fun a b => a ≤ b)

/-- Number of samples still at risk at time `t` (duration ≥ `t`). -/
def kmAtRisk (samples : List (ℚ × Bool)) (t : ℚ) : ℕ :=
  (samples.filter (fun s => decide (t ≤ s.1))).length

/-- Number of events observed exactly at time `t`. -/
def kmDeaths (samples : List (ℚ × Bool)) (t : ℚ) : ℕ :=
  (samples.filter (fun s => s.2 && decide (s.1 = t))).length

/-- Modelled from the spec: Kaplan-Meier survival probability at time `t`,
`∏ (1 - d_i / n_i)` over event times `≤ t` (forward-fill step function). -/
def kmSurvivalAt (samples : List (ℚ × Bool)) (t : ℚ) : ℚ :=
  ((kmEventTimes samples).filter (fun d => decide (d ≤ t))).foldl
    (fun acc d => acc * (1 - (kmDeaths samples d : ℚ) / (kmAtRisk samples d : ℚ))) 1

/-- The metrics dictionary returned by `compute_survival` for a non-empty series.
The float `NaN` of `empirical_full` is modelled as `none`. The derived price-band
fields `price_from`/`price_to`/`percent_range_total` (real powers of `1.0001`,
display-only) are not modelled; no claim concerns them. -/
structure Metrics where
  W : ℤ
  horizonHours : ℕ
  countTotal : ℕ
  countFullFollowup : ℕ
  empiricalFull : Option ℚ
  kmSurv : ℚ
  tickFrom : ℤ
  tickTo : ℤ
deriving DecidableEq

/-- The aggregate computation of `compute_survival` on a non-empty series. -/
def survivalMetrics (rows : List TickRow) (W : ℤ) (H : ℕ) : Metrics :=
  let samples := (List.range rows.length).map (survivalSample rows W H)
  let durEv := samples.map (fun s => (s.durationH, s.event))
  let countFull := (samples.filter (fun s => s.hasFull)).length
  let survivorsFull :=
    (samples.filter (fun s => !s.event && decide ((H : ℚ) ≤ s.durationH) && s.hasFull)).length
  let center := medianTick (rows.map (fun r => r.tick))
  { W := W
    horizonHours := H
    countTotal := samples.length
    countFullFollowup := countFull
    empiricalFull := if countFull = 0 then none else some ((survivorsFull : ℚ) / countFull)
    kmSurv := kmSurvivalAt durEv (H : ℚ)
    tickFrom := center - W
    tickTo := center + W }

/-- `compute_survival`: `None` on an empty DataFrame, otherwise the metrics. -/
def computeSurvival (rows : List TickRow) (W : ℤ) (H : ℕ) : Option Metrics :=
  if rows.isEmpty then none else some (survivalMetrics rows W H)

/-! ## Recommendation gating (`generate_recommendation`) -/

/-- First reason fragment: survival threshold. -/
def survFragment (km : ℚ) : String :=
  if (0.6 : ℚ) ≤ km then "km_surv >= 0.6" else "km_surv < 0.6"

/-- Second reason fragment: total-count threshold. -/
def totalFragment (total : ℕ) : String :=
  if 200 ≤ total then "count_total >= 200" else "count_total < 200"

/-- Third reason fragment: full-followup-count threshold. -/
def fullFragment (full : ℕ) : String :=
  if 100 ≤ full then "count_full >= 100" else "count_full < 100"

/-- The `accepted` conjunction of `generate_recommendation`. -/
def gateAccepted (km : ℚ) (total full : ℕ) : Bool :=
  decide ((0.6 : ℚ) ≤ km) && decide (200 ≤ total) && decide (100 ≤ full)

/-- `" & ".join(reasons)` over the three fragments, in the code's fixed order. -/
def gateReason (km : ℚ) (total full : ℕ) : String :=
  String.intercalate " & " [survFragment km, totalFragment total, fullFragment full]

/-- One output row of `generate_recommendation`: metrics plus `status`/`reason`. -/
structure RecRow where
  metrics : Metrics
  status : String
  reason : String
deriving DecidableEq

/-- The per-cell gating block of `generate_recommendation`. -/
def recFromMetrics (m : Metrics) : RecRow :=
  { metrics := m
    status :=
      if gateAccepted m.kmSurv m.countTotal m.countFullFollowup then "ACCEPTED" else "REJECTED"
    reason := gateReason m.kmSurv m.countTotal m.countFullFollowup }

/-- The default window grid (tick half-widths). -/
def WINDOWS : List ℤ := [100, 200, 300, 500]

/-- The default horizon grid (hours). -/
def HORIZONS : List ℕ := [6, 12, 24, 48]

/-- `generate_recommendation`: loop over horizons (outer) and windows (inner),
skipping cells whose `compute_survival` returned `None`. -/
def generateRecommendation (rows : List TickRow) : List RecRow :=
  HORIZONS.flatMap fun h =>
    WINDOWS.filterMap fun w => (computeSurvival rows w h).map recFromMetrics

/-- C2: recommendation gating. Status is `ACCEPTED` iff
`km_survival ≥ 0.6 ∧ count_total ≥ 200 ∧ count_full_followup ≥ 100` (else
`REJECTED`), and the reason string is the fixed-order conjunction of three
fragments, each a function of its own metric alone and stating whether that
sub-condition passed — so changing one metric can only flip its own fragment. -/
theorem recommendation_gating (m : Metrics) :
    ((recFromMetrics m).status = "ACCEPTED" ↔
      ((0.6 : ℚ) ≤ m.kmSurv ∧ 200 ≤ m.countTotal ∧ 100 ≤ m.countFullFollowup)) ∧
    ((recFromMetrics m).status = "ACCEPTED" ∨ (recFromMetrics m).status = "REJECTED") ∧
    (recFromMetrics m).reason =
      survFragment m.kmSurv ++ " & " ++ totalFragment m.countTotal ++ " & " ++
        fullFragment m.countFullFollowup ∧
    (((0.6 : ℚ) ≤ m.kmSurv → survFragment m.kmSurv = "km_surv >= 0.6") ∧
      (¬ (0.6 : ℚ) ≤ m.kmSurv → survFragment m.kmSurv = "km_surv < 0.6")) ∧
    ((200 ≤ m.countTotal → totalFragment m.countTotal = "count_total >= 200") ∧
      (¬ 200 ≤ m.countTotal → totalFragment m.countTotal = "count_total < 200")) ∧
    ((100 ≤ m.countFullFollowup → fullFragment m.countFullFollowup = "count_full >= 100") ∧
      (¬ 100 ≤ m.countFullFollowup → fullFragment m.countFullFollowup = "count_full < 100")) := by
  refine ⟨?_, ?_, ?_, ?_, ?_, ?_⟩
  · by_cases ha : (0.6 : ℚ) ≤ m.kmSurv <;>
      by_cases hb : 200 ≤ m.countTotal <;>
      by_cases hc : 100 ≤ m.countFullFollowup <;>
      simp [recFromMetrics, gateAccepted, ha, hb, hc]
  · simp only [recFromMetrics]
    split <;> simp
  · simp [recFromMetrics, gateReason, String.intercalate, String.intercalate.go,
      String.append_assoc]
  · constructor <;> intro h <;> simp [survFragment, h]
  · constructor <;> intro h <;> simp [totalFragment, h]
  · constructor <;> intro h <;> simp [fullFragment, h]

/-- `compute_survival` returns metrics (never `None`) on a non-empty series. -/
theorem computeSurvival_of_ne_nil (rows : List TickRow) (hne : rows ≠ []) (W : ℤ) (H : ℕ) :
    computeSurvival rows W H = some (survivalMetrics rows W H) := by
  simp [computeSurvival, hne]

/-- The metrics record the cell's own window. -/
theorem survivalMetrics_W (rows : List TickRow) (W : ℤ) (H : ℕ) :
    (survivalMetrics rows W H).W = W := rfl

/-- The metrics record the cell's own horizon. -/
theorem survivalMetrics_horizonHours (rows : List TickRow) (W : ℤ) (H : ℕ) :
    (survivalMetrics rows W H).horizonHours = H := rfl

/-- The gating block passes the metrics through unchanged. -/
theorem recFromMetrics_metrics (m : Metrics) : (recFromMetrics m).metrics = m := rfl

/-- C4: `generate_recommendation` returns, for a non-empty tick series, exactly one
recommendation per `(horizon, window)` pair in horizon-major order; for an empty
series the output list is empty (cells are omitted, not reported or raised). -/
theorem recommendation_grid (rows : List TickRow) :
    (rows ≠ [] →
      (generateRecommendation rows).map (fun r => (r.metrics.horizonHours, r.metrics.W)) =
        HORIZONS.flatMap fun h => WINDOWS.map fun w => (h, w)) ∧
    (rows = [] → generateRecommendation rows = []) := by
  constructor
  · intro hne
    simp [generateRecommendation, HORIZONS, WINDOWS, computeSurvival_of_ne_nil rows hne,
      recFromMetrics_metrics, survivalMetrics_W, survivalMetrics_horizonHours]
  · intro h
    subst h
    rfl

/-- C4 witness: the grid structure at the concrete scenario series, and the empty
series yielding the empty output list. -/
theorem recommendation_grid_witness :
    ((generateRecommendation sampleRows).map
        (fun r => (r.metrics.horizonHours, r.metrics.W)) =
      HORIZONS.flatMap fun h => WINDOWS.map fun w => (h, w)) ∧
    generateRecommendation ([] : List TickRow) = [] :=
  ⟨(recommendation_grid sampleRows).1 (by decide), (recommendation_grid []).2 rfl⟩

/-! ## Tick discretization (`compute_ticks`)

The Python code computes `np.log` / `math.log` on floats; the logarithm is
modelled over the reals, so these definitions are necessarily noncomputable. -/

/-- One row of the price DataFrame. Raw frames (before `compute_ticks`) carry `0`
in the two derived columns, modelling their absence. -/
structure PriceRow where
  ts : ℤ
  price : ℝ
  logPrice : ℝ
  tick : ℤ

/-- `tick(p) = floor(log(p) / log(1.0001))`, the Uniswap V3 tick of a price. -/
noncomputable def tick (p : ℝ) : ℤ :=
  ⌊Real.log p / Real.log 1.0001⌋

/-- `compute_ticks`: drop rows with non-positive price, then add the
`log_price` and `tick` columns. -/
noncomputable def computeTicks (df : List PriceRow) : List PriceRow :=
  (df.filter fun r => decide (0 < r.price)).map
    fun r => { r with logPrice := Real.log r.price, tick := tick r.price }

/-- C3: tick discretization. `tick 1 = 0`; `tick` is non-decreasing in the price;
every row of `compute_ticks` output has a positive price with
`tick = floor(log(price) / log(1.0001))`; and the output prices are exactly the
positive input prices (non-positive rows are dropped before tick computation). -/
theorem tick_discretization (p₁ p₂ : ℝ) (hp : 0 < p₁) (h12 : p₁ ≤ p₂)
    (df : List PriceRow) :
    tick 1 = 0 ∧
    tick p₁ ≤ tick p₂ ∧
    (∀ r ∈ computeTicks df,
      0 < r.price ∧ r.tick = ⌊Real.log r.price / Real.log 1.0001⌋) ∧
    (computeTicks df).map (fun r => r.price) =
      ((df.filter fun r => decide (0 < r.price)).map fun r => r.price) := by
  have hc : (0 : ℝ) < Real.log 1.0001 := Real.log_pos (by norm_num)
  refine ⟨?_, ?_, ?_, ?_⟩
  · simp [tick]
  · apply Int.floor_mono
    have hlog : Real.log p₁ ≤ Real.log p₂ := Real.log_le_log hp h12
    gcongr
  · intro r hr
    simp only [computeTicks, List.mem_map, List.mem_filter] at hr
    obtain ⟨a, ⟨-, hpos⟩, rfl⟩ := hr
    exact ⟨by simpa using hpos, rfl⟩
  · simp [computeTicks, List.map_map]

/-- C3 witness: instantiated at `p₁ = 1`, `p₂ = 2` and a two-row frame with one
positive-price and one negative-price row. -/
theorem tick_discretization_witness :
    tick 1 = 0 ∧
    tick 1 ≤ tick 2 ∧
    (∀ r ∈ computeTicks [⟨0, 2, 0, 0⟩, ⟨60, -1, 0, 0⟩],
      0 < r.price ∧ r.tick = ⌊Real.log r.price / Real.log 1.0001⌋) ∧
    (computeTicks [⟨0, 2, 0, 0⟩, ⟨60, -1, 0, 0⟩]).map (fun r => r.price) =
      ((([⟨0, 2, 0, 0⟩, ⟨60, -1, 0, 0⟩] : List PriceRow).filter
          fun r => decide (0 < r.price)).map fun r => r.price) :=
  tick_discretization 1 2 (by norm_num) (by norm_num) _

/-! ## Frame effect of `compute_ticks` (it copies, never mutates, its input)

`compute_ticks` begins with `df = df.copy()`; all subsequent filtering and column
assignments act on the copy. A DataFrame variable is modelled as an index into a
heap of frames; `compute_ticks` allocates one fresh frame and returns its index. -/

/-- Heap-level `compute_ticks`: returns the index of the freshly allocated result
frame together with the new heap. -/
noncomputable def computeTicksHeap (heap : List (List PriceRow)) (df : ℕ) :
    ℕ × List (List PriceRow) :=
  (heap.length, heap ++ [computeTicks (heap.getD df [])])

/-- C10: `compute_ticks` is pure with respect to its input frame: the result lives
in a fresh frame, the input frame is unchanged (every original row, including
non-positive-price rows, is still in it), and only the returned frame has the
non-positive-price rows removed. -/
theorem computeTicks_frame_effect (heap : List (List PriceRow)) (df : ℕ)
    (hdf : df < heap.length) :
    ((computeTicksHeap heap df).2.getD df [] = heap.getD df []) ∧
    (computeTicksHeap heap df).1 ≠ df ∧
    ((computeTicksHeap heap df).2.getD (computeTicksHeap heap df).1 [] =
      computeTicks (heap.getD df [])) ∧
    (∀ r ∈ heap.getD df [], r ∈ (computeTicksHeap heap df).2.getD df []) := by
  have h1 : (computeTicksHeap heap df).2.getD df [] = heap.getD df [] := by
    simp only [computeTicksHeap]
    exact List.getD_append _ _ _ _ hdf
  refine ⟨h1, by simp [computeTicksHeap]; omega, ?_, ?_⟩
  · simp only [computeTicksHeap, List.getD_eq_getElem?_getD, List.getElem?_concat_length]
    rfl
  · intro r hr
    rw [h1]
    exact hr

/-- C10 witness: a one-frame heap whose frame holds a positive-price and a
negative-price row; the input frame is untouched and retains both rows. -/
theorem computeTicks_frame_effect_witness :
    ((computeTicksHeap [[⟨0, 2, 0, 0⟩, ⟨60, -1, 0, 0⟩]] 0).2.getD 0 [] =
      [⟨0, 2, 0, 0⟩, ⟨60, -1, 0, 0⟩]) ∧
    (computeTicksHeap [[⟨0, 2, 0, 0⟩, ⟨60, -1, 0, 0⟩]] 0).1 ≠ 0 ∧
    ((computeTicksHeap [[⟨0, 2, 0, 0⟩, ⟨60, -1, 0, 0⟩]] 0).2.getD
        (computeTicksHeap [[⟨0, 2, 0, 0⟩, ⟨60, -1, 0, 0⟩]] 0).1 [] =
      computeTicks [⟨0, 2, 0, 0⟩, ⟨60, -1, 0, 0⟩]) ∧
    (∀ r ∈ ([⟨0, 2, 0, 0⟩, ⟨60, -1, 0, 0⟩] : List PriceRow),
      r ∈ (computeTicksHeap [[⟨0, 2, 0, 0⟩, ⟨60, -1, 0, 0⟩]] 0).2.getD 0 []) :=
  computeTicks_frame_effect [[⟨0, 2, 0, 0⟩, ⟨60, -1, 0, 0⟩]] 0 (by norm_num)

/-! ## Price history builder with cache merge (`get_price_data`)

Remote state is abstracted: `blkOf` is the block resolved for a grid timestamp
(`find_block_for_timestamp`) and `reserves` the `getReserves()` read at a block.
A row has `timestamp`, `price`, `block`; `dropna` is the identity here because
constructed rows are total. -/

/-- One cached/fetched price row. -/
structure PriceRec where
  ts : ℤ
  price : ℚ
  blk : ℕ
deriving DecidableEq

/-- `df.sort_values("timestamp")` (stable sort on the timestamp column). -/
def sortByTs (l : List PriceRec) : List PriceRec :=
  l.insertionSort fun a b => a.ts ≤ b.ts

/-- `load_cached_prices(path, start_ts, end_ts)`: restrict the on-disk series to
the window and sort ascending by timestamp. -/
def loadCachedPrices (disk : List PriceRec) (startTs stopTs : ℤ) : List PriceRec :=
  sortByTs (disk.filter fun r => decide (startTs ≤ r.ts) && decide (r.ts ≤ stopTs))

/-- Number of iterations of `while target_ts <= now` stepping by `step`. -/
def gridCount (startTs step stopTs : ℤ) : ℕ :=
  if startTs ≤ stopTs ∧ 0 < step then ((stopTs - startTs) / step).toNat + 1 else 0

/-- The sampling grid `start_ts, start_ts + step, …, ≤ now`. -/
def gridPoints (startTs step stopTs : ℤ) : List ℤ :=
  (List.range (gridCount startTs step stopTs)).map fun k : ℕ => startTs + (k : ℤ) * step

/-- The fetch loop of `get_price_data`: walk the grid, skip timestamps already in
`existing`, otherwise resolve a block, read reserves, and append a row when both
reserves are strictly positive. Returns (timestamps remotely queried, new rows). -/
def fetchNewPoints (blkOf : ℤ → ℕ) (reserves : ℕ → Option (ℚ × ℚ)) (decExp : ℤ)
    (existing : List ℤ) : List ℤ → List ℤ × List PriceRec
  | [] => ([], [])
  | t :: rest =>
    if t ∈ existing then fetchNewPoints blkOf reserves decExp existing rest
    else
      let prev := fetchNewPoints blkOf reserves decExp existing rest
      match reserves (blkOf t) with
      | some (r0, r1) =>
        if 0 < r0 ∧ 0 < r1 then
          (t :: prev.1, ⟨t, r1 / r0 * (10 : ℚ) ^ decExp, blkOf t⟩ :: prev.2)
        else (t :: prev.1, prev.2)
      | none => (t :: prev.1, prev.2)

/-- The merged series: loaded cache plus newly fetched rows, sorted by timestamp. -/
def mergedSeries (blkOf : ℤ → ℕ) (reserves : ℕ → Option (ℚ × ℚ)) (decExp : ℤ)
    (diskCache : List PriceRec) (startTs now step : ℤ) : List PriceRec :=
  sortByTs (loadCachedPrices diskCache startTs now ++
    (fetchNewPoints blkOf reserves decExp
      ((loadCachedPrices diskCache startTs now).map (fun r => r.ts))
      (gridPoints startTs step now)).2)

/-- The timestamps for which `get_price_data` issues remote calls. -/
def queriedPoints (blkOf : ℤ → ℕ) (reserves : ℕ → Option (ℚ × ℚ)) (decExp : ℤ)
    (diskCache : List PriceRec) (startTs now step : ℤ) : List ℤ :=
  (fetchNewPoints blkOf reserves decExp
    ((loadCachedPrices diskCache startTs now).map (fun r => r.ts))
    (gridPoints startTs step now)).1

/-- Observable outcome of one `get_price_data` run. -/
structure FetchRun where
  queried : List ℤ
  merged : List PriceRec
  result : Except Unit (List PriceRec)
  finalCache : List PriceRec

/-- `get_price_data`: on an empty merged series raise the data-unavailable error
(`Except.error`) without touching the cache file; otherwise save the merged
series to the cache and return it. -/
def getPriceData (blkOf : ℤ → ℕ) (reserves : ℕ → Option (ℚ × ℚ)) (decExp : ℤ)
    (diskCache : List PriceRec) (startTs now step : ℤ) : FetchRun :=
  if mergedSeries blkOf reserves decExp diskCache startTs now step = [] then
    { queried := queriedPoints blkOf reserves decExp diskCache startTs now step
      merged := mergedSeries blkOf reserves decExp diskCache startTs now step
      result := Except.error ()
      finalCache := diskCache }
  else
    { queried := queriedPoints blkOf reserves decExp diskCache startTs now step
      merged := mergedSeries blkOf reserves decExp diskCache startTs now step
      result := Except.ok (mergedSeries blkOf reserves decExp diskCache startTs now step)
      finalCache := mergedSeries blkOf reserves decExp diskCache startTs now step }

/-! ### Lemmas about the fetch loop and the grid -/

/-- The queried timestamps are exactly the grid points not already cached. -/
theorem fetchNewPoints_queried (blkOf : ℤ → ℕ) (reserves : ℕ → Option (ℚ × ℚ))
    (decExp : ℤ) (existing : List ℤ) :
    ∀ l, (fetchNewPoints blkOf reserves decExp existing l).1 =
      l.filter fun t => !decide (t ∈ existing) := by
  intro l
  induction l with
  | nil => rfl
  | cons t rest ih =>
    by_cases ht : t ∈ existing
    · simp [fetchNewPoints, ht, ih]
    · cases hres : reserves (blkOf t) with
      | none => simp [fetchNewPoints, ht, hres, ih]
      | some p =>
        obtain ⟨r0, r1⟩ := p
        by_cases hpos : 0 < r0 ∧ 0 < r1
        · simp [fetchNewPoints, ht, hres, hpos, ih]
        · simp [fetchNewPoints, ht, hres, hpos, ih]

/-- The timestamps of the fetched rows form a sublist of the queried timestamps. -/
theorem fetchNewPoints_ts_sublist (blkOf : ℤ → ℕ) (reserves : ℕ → Option (ℚ × ℚ))
    (decExp : ℤ) (existing : List ℤ) :
    ∀ l, ((fetchNewPoints blkOf reserves decExp existing l).2.map (fun r => r.ts)).Sublist
      (fetchNewPoints blkOf reserves decExp existing l).1 := by
  intro l
  induction l with
  | nil => simp [fetchNewPoints]
  | cons t rest ih =>
    by_cases ht : t ∈ existing
    · simpa [fetchNewPoints, ht] using ih
    · cases hres : reserves (blkOf t) with
      | none =>
        simp only [fetchNewPoints, if_neg ht, hres]
        exact ih.cons t
      | some p =>
        obtain ⟨r0, r1⟩ := p
        by_cases hpos : 0 < r0 ∧ 0 < r1
        · simp only [fetchNewPoints, if_neg ht, hres, if_pos hpos, List.map_cons]
          exact ih.cons₂ t
        · simp only [fetchNewPoints, if_neg ht, hres, if_neg hpos]
          exact ih.cons t

/-- The sampling grid is strictly increasing. -/
theorem gridPoints_pairwise_lt (startTs step stopTs : ℤ) :
    (gridPoints startTs step stopTs).Pairwise (fun a b => a < b) := by
  unfold gridPoints gridCount
  by_cases h : startTs ≤ stopTs ∧ 0 < step
  · rw [if_pos h]
    apply List.Pairwise.map (fun k : ℕ => startTs + (k : ℤ) * step) ?_
      (List.pairwise_lt_range _)
    intro a b hab
    have hmul : (a : ℤ) * step < (b : ℤ) * step := by
      apply mul_lt_mul_of_pos_right _ h.2
      exact_mod_cast hab
    dsimp only
    omega
  · rw [if_neg h]
    simp

/-- `sortByTs` permutes its input. -/
theorem sortByTs_perm (l : List PriceRec) : (sortByTs l).Perm l :=
  List.perm_insertionSort _ l

/-- `sortByTs` sorts by timestamp (non-strictly). -/
theorem sortByTs_sorted (l : List PriceRec) :
    (sortByTs l).Pairwise fun a b => a.ts ≤ b.ts :=
  @List.sorted_insertionSort PriceRec (fun a b => a.ts ≤ b.ts) _
    ⟨fun a b => le_total a.ts b.ts⟩ ⟨fun _ _ _ hab hbc => le_trans hab hbc⟩ l

/-- A non-strictly sorted series with pairwise-distinct timestamps is strictly
ascending in timestamp. -/
theorem pairwise_ts_lt_of_nodup (l : List PriceRec)
    (hle : l.Pairwise fun a b => a.ts ≤ b.ts)
    (hnd : (l.map fun r => r.ts).Nodup) :
    l.Pairwise fun a b => a.ts < b.ts := by
  have hne : l.Pairwise fun a b => a.ts ≠ b.ts := List.pairwise_map.mp hnd
  exact (hle.and hne).imp fun h => lt_of_le_of_ne h.1 h.2

/-- Loading the cache preserves distinctness of the timestamps. -/
theorem loadCachedPrices_ts_nodup (disk : List PriceRec) (s e : ℤ)
    (hnd : (disk.map fun r => r.ts).Nodup) :
    ((loadCachedPrices disk s e).map fun r => r.ts).Nodup := by
  unfold loadCachedPrices
  rw [List.Perm.nodup_iff ((sortByTs_perm _).map fun r => r.ts)]
  exact ((List.filter_sublist disk).map fun r => r.ts).nodup hnd

/-- The grid has pairwise-distinct timestamps. -/
theorem gridPoints_nodup (startTs step stopTs : ℤ) :
    (gridPoints startTs step stopTs).Nodup :=
  (gridPoints_pairwise_lt startTs step stopTs).imp fun h => ne_of_lt h

/-- The `queried` field of a run is the fetch-loop trace. -/
theorem getPriceData_queried (blkOf : ℤ → ℕ) (reserves : ℕ → Option (ℚ × ℚ))
    (decExp : ℤ) (diskCache : List PriceRec) (startTs now step : ℤ) :
    (getPriceData blkOf reserves decExp diskCache startTs now step).queried =
      queriedPoints blkOf reserves decExp diskCache startTs now step := by
  unfold getPriceData
  split <;> rfl

/-- The `merged` field of a run is the merged series. -/
theorem getPriceData_merged (blkOf : ℤ → ℕ) (reserves : ℕ → Option (ℚ × ℚ))
    (decExp : ℤ) (diskCache : List PriceRec) (startTs now step : ℤ) :
    (getPriceData blkOf reserves decExp diskCache startTs now step).merged =
      mergedSeries blkOf reserves decExp diskCache startTs now step := by
  unfold getPriceData
  split <;> rfl

/-- C5: cache merge. When the cached series has pairwise-distinct timestamps, a
build never issues a remote fetch for a grid timestamp already present in the
loaded cache, and the merged series is strictly ascending in timestamp (hence
duplicate-free). -/
theorem cache_merge_no_refetch (blkOf : ℤ → ℕ) (reserves : ℕ → Option (ℚ × ℚ))
    (decExp : ℤ) (diskCache : List PriceRec) (startTs now step : ℤ)
    (hnd : (diskCache.map fun r => r.ts).Nodup) :
    (∀ t ∈ (getPriceData blkOf reserves decExp diskCache startTs now step).queried,
      t ∉ (loadCachedPrices diskCache startTs now).map fun r => r.ts) ∧
    (getPriceData blkOf reserves decExp diskCache startTs now step).merged.Pairwise
      (fun a b => a.ts < b.ts) := by
  have hcachend := loadCachedPrices_ts_nodup diskCache startTs now hnd
  constructor
  · intro t ht
    rw [getPriceData_queried] at ht
    unfold queriedPoints at ht
    rw [fetchNewPoints_queried] at ht
    have := (List.mem_filter.mp ht).2
    simpa using this
  · rw [getPriceData_merged]
    unfold mergedSeries
    apply pairwise_ts_lt_of_nodup
    · exact sortByTs_sorted _
    · rw [List.Perm.nodup_iff ((sortByTs_perm _).map fun r => r.ts)]
      rw [List.map_append, List.nodup_append]
      have hsub := fetchNewPoints_ts_sublist blkOf reserves decExp
        ((loadCachedPrices diskCache startTs now).map fun r => r.ts)
        (gridPoints startTs step now)
      have hquery := fetchNewPoints_queried blkOf reserves decExp
        ((loadCachedPrices diskCache startTs now).map fun r => r.ts)
        (gridPoints startTs step now)
      refine ⟨hcachend, ?_, ?_⟩
      · apply hsub.nodup
        rw [hquery]
        exact (gridPoints_nodup startTs step now).filter _
      · intro t htc htr
        have htq := hsub.subset htr
        rw [hquery] at htq
        have := (List.mem_filter.mp htq).2
        simp only [Bool.not_eq_true', decide_eq_false_iff_not] at this
        exact this htc

/-- C5 witness: a one-row cache at timestamp 5, grid `{0, 5, 10}`; only 0 and 10
are fetched and the merged series is strictly ascending. -/
theorem cache_merge_no_refetch_witness :
    (∀ t ∈ (getPriceData (fun t => t.toNat) (fun _ => some (1, 2)) 0
        [⟨5, 1, 0⟩] 0 10 5).queried,
      t ∉ (loadCachedPrices [⟨5, 1, 0⟩] 0 10).map fun r => r.ts) ∧
    (getPriceData (fun t => t.toNat) (fun _ => some (1, 2)) 0
        [⟨5, 1, 0⟩] 0 10 5).merged.Pairwise (fun a b => a.ts < b.ts) :=
  cache_merge_no_refetch (fun t => t.toNat) (fun _ => some (1, 2)) 0
    [⟨5, 1, 0⟩] 0 10 5 (by decide)

/-- C6: empty-series failure with cache atomicity. If the merged, cleaned series
is empty, the run fails with the data-unavailable error and the on-disk cache is
left unchanged; only a successful (non-empty) run rewrites the cache, with the
merged series. -/
theorem empty_series_failure (blkOf : ℤ → ℕ) (reserves : ℕ → Option (ℚ × ℚ))
    (decExp : ℤ) (diskCache : List PriceRec) (startTs now step : ℤ) :
    ((getPriceData blkOf reserves decExp diskCache startTs now step).merged = [] →
      (getPriceData blkOf reserves decExp diskCache startTs now step).result =
        Except.error () ∧
      (getPriceData blkOf reserves decExp diskCache startTs now step).finalCache =
        diskCache) ∧
    ((getPriceData blkOf reserves decExp diskCache startTs now step).merged ≠ [] →
      (getPriceData blkOf reserves decExp diskCache startTs now step).result =
        Except.ok
          (getPriceData blkOf reserves decExp diskCache startTs now step).merged ∧
      (getPriceData blkOf reserves decExp diskCache startTs now step).finalCache =
        (getPriceData blkOf reserves decExp diskCache startTs now step).merged) := by
  by_cases h : mergedSeries blkOf reserves decExp diskCache startTs now step = [] <;>
    simp [getPriceData, h]

/-- C6 witness: a run whose every fetch fails and whose cache is empty produces an
empty merged series, errors out, and leaves the (empty) cache untouched. -/
theorem empty_series_failure_witness :
    (getPriceData (fun t => t.toNat) (fun _ => none) 0 [] 0 10 5).result =
      Except.error () ∧
    (getPriceData (fun t => t.toNat) (fun _ => none) 0 [] 0 10 5).finalCache = [] :=
  (empty_series_failure (fun t => t.toNat) (fun _ => none) 0 [] 0 10 5).1 (by decide)

/-! ## Block-timestamp resolver (`find_block_for_timestamp`)

`bts` abstracts `get_block(hex(guess))["timestamp"]`; `avg` is
`BASE_BLOCK_TIME_SEC`. Python `int(x)` on the float quotient truncates toward
zero (`truncQ`); the spec instead claims `round`, modelled by `pyRound`
(round-half-to-even, Python's `round`). -/

/-- Python `round()`: nearest integer, ties to even. -/
def pyRound (q : ℚ) : ℤ :=
  if q - ⌊q⌋ < 1 / 2 then ⌊q⌋
  else if 1 / 2 < q - ⌊q⌋ then ⌊q⌋ + 1
  else if ⌊q⌋ % 2 = 0 then ⌊q⌋ else ⌊q⌋ + 1

/-- One loop body of `find_block_for_timestamp` as written:
`adjust = int(diff / avg)`, forced to `±1` when the truncated quotient is `0`,
then `guess = max(0, guess - adjust)`. -/
def resolveStep (bts : ℕ → ℤ) (avg : ℚ) (target : ℤ) (g : ℕ) : ℕ :=
  let diff : ℤ := bts g - target
  let adjust : ℤ := truncQ ((diff : ℚ) / avg)
  let adjust : ℤ := if adjust = 0 then (if 0 < diff then 1 else -1) else adjust
  (max 0 ((g : ℤ) - adjust)).toNat

/-- The claimed loop body, with `round(diff / avg)` in place of the truncation. -/
def resolveStepRounded (bts : ℕ → ℤ) (avg : ℚ) (target : ℤ) (g : ℕ) : ℕ :=
  let diff : ℤ := bts g - target
  let adjust : ℤ := pyRound ((diff : ℚ) / avg)
  let adjust : ℤ := if adjust = 0 then (if 0 < diff then 1 else -1) else adjust
  (max 0 ((g : ℤ) - adjust)).toNat

/-- The bounded iteration (`for _ in range(10)`), parameterized by remaining fuel:
return the guess once within 30 seconds of the target, else adjust and continue;
on exhaustion return the last guess. -/
def resolveLoop (bts : ℕ → ℤ) (avg : ℚ) (target : ℤ) : ℕ → ℕ → ℕ
  | g, 0 => g
  | g, fuel + 1 =>
    if |bts g - target| ≤ 30 then g
    else resolveLoop bts avg target (resolveStep bts avg target g) fuel

/-- The claimed iteration, using the rounded adjustment. -/
def resolveLoopRounded (bts : ℕ → ℤ) (avg : ℚ) (target : ℤ) : ℕ → ℕ → ℕ
  | g, 0 => g
  | g, fuel + 1 =>
    if |bts g - target| ≤ 30 then g
    else resolveLoopRounded bts avg target (resolveStepRounded bts avg target g) fuel

/-- `guess = max(0, int(latest_num - (latest_ts - target_ts) / avg))`. -/
def initialGuess (avg : ℚ) (target latestNum latestTs : ℤ) : ℕ :=
  (max 0 (truncQ ((latestNum : ℚ) - ((latestTs - target : ℤ) : ℚ) / avg))).toNat

/-- `find_block_for_timestamp`: clamped initial estimate, then at most 10
adjustment iterations. -/
def findBlockForTimestamp (bts : ℕ → ℤ) (avg : ℚ) (target latestNum latestTs : ℤ) : ℕ :=
  resolveLoop bts avg target (initialGuess avg target latestNum latestTs) 10

/-- The resolver as the claim words it (rounded adjustment). -/
def findBlockForTimestampRounded (bts : ℕ → ℤ) (avg : ℚ)
    (target latestNum latestTs : ℤ) : ℕ :=
  resolveLoopRounded bts avg target (initialGuess avg target latestNum latestTs) 10

/-- A concrete block-timestamp oracle on which truncation and rounding diverge
(`avg = 20`, `target = 0`): block 3 is 35 s late, block 2 within tolerance,
every other block 200 s late. -/
def btsX : ℕ → ℤ := fun b => if b = 3 then 35 else if b = 2 then 10 else 200

/-- C7 counterexample: at `guess = 3` the code computes `diff = 35` and subtracts
`int(35 / 20) = 1` — not `round(35 / 20) = 2` as claimed — so the run returns
block 2, while the claimed rounded adjustment would return 0. -/
theorem find_block_truncates_not_rounds :
    resolveStep btsX 20 0 3 = 2 ∧
    resolveStepRounded btsX 20 0 3 = 1 ∧
    findBlockForTimestamp btsX 20 0 5 35 = 2 ∧
    findBlockForTimestampRounded btsX 20 0 5 35 = 0 := by
  refine ⟨?_, ?_, ?_, ?_⟩
  · norm_num [resolveStep, truncQ, btsX, max_def, Int.toNat]
  · norm_num [resolveStepRounded, pyRound, btsX, max_def, Int.toNat]
  · norm_num [findBlockForTimestamp, resolveLoop, resolveStep, initialGuess, truncQ,
      btsX, max_def, Int.toNat]
  · norm_num [findBlockForTimestampRounded, resolveLoopRounded, resolveStepRounded,
      pyRound, initialGuess, truncQ, btsX, max_def, Int.toNat]

/-- `resolveLoop` returns the first in-tolerance iterate of `resolveStep`, or the
`fuel`-th iterate if none is in tolerance. -/
theorem resolveLoop_iterate (bts : ℕ → ℤ) (avg : ℚ) (target : ℤ) :
    ∀ fuel g,
      (∀ j, j < fuel → |bts ((resolveStep bts avg target)^[j] g) - target| ≤ 30 →
        (∀ m, m < j → ¬ |bts ((resolveStep bts avg target)^[m] g) - target| ≤ 30) →
        resolveLoop bts avg target g fuel = (resolveStep bts avg target)^[j] g) ∧
      ((∀ m, m < fuel → ¬ |bts ((resolveStep bts avg target)^[m] g) - target| ≤ 30) →
        resolveLoop bts avg target g fuel = (resolveStep bts avg target)^[fuel] g) := by
  intro fuel
  induction fuel with
  | zero =>
    intro g
    exact ⟨fun j hj => by omega, fun _ => rfl⟩
  | succ f ih =>
    intro g
    by_cases htol : |bts g - target| ≤ 30
    · constructor
      · intro j hj hjtol h144
        rcases Nat.eq_zero_or_pos j with rfl | hpos
        · simp [resolveLoop, htol]
        · exact absurd htol (by simpa using h144 0 hpos)
      · intro hall
        exact absurd htol (by simpa using hall 0 (by omega))
    · constructor
      · intro j hj hjtol hprev
        rcases Nat.eq_zero_or_pos j with rfl | hpos
        · exact absurd (by simpa using hjtol) htol
        · obtain ⟨j', rfl⟩ := Nat.exists_eq_succ_of_ne_zero (show j ≠ 0 by omega)
          have hstep : resolveLoop bts avg target g (f + 1) =
              resolveLoop bts avg target (resolveStep bts avg target g) f := by
            simp [resolveLoop, htol]
          rw [hstep, Function.iterate_succ_apply]
          apply (ih (resolveStep bts avg target g)).1 j' (by omega)
          · rw [← Function.iterate_succ_apply]
            exact hjtol
          · intro m hm
            rw [← Function.iterate_succ_apply]
            exact hprev (m + 1) (by omega)
      · intro hall
        have hstep : resolveLoop bts avg target g (f + 1) =
            resolveLoop bts avg target (resolveStep bts avg target g) f := by
          simp [resolveLoop, htol]
        rw [hstep, Function.iterate_succ_apply]
        apply (ih (resolveStep bts avg target g)).2
        intro m hm
        rw [← Function.iterate_succ_apply]
        exact hall (m + 1) (by omega)

/-- C7 amended theorem: the resolver iterates the clamped
truncation-adjustment step at most 10 times from the clamped initial estimate;
it returns the first guess within 30 seconds of the target, and the last guess
if the loop exhausts. -/
theorem find_block_resolver_behaviour (bts : ℕ → ℤ) (avg : ℚ)
    (target latestNum latestTs : ℤ) :
    (∀ j, j < 10 →
      |bts ((resolveStep bts avg target)^[j]
        (initialGuess avg target latestNum latestTs)) - target| ≤ 30 →
      (∀ m, m < j → ¬ |bts ((resolveStep bts avg target)^[m]
        (initialGuess avg target latestNum latestTs)) - target| ≤ 30) →
      findBlockForTimestamp bts avg target latestNum latestTs =
        (resolveStep bts avg target)^[j] (initialGuess avg target latestNum latestTs)) ∧
    ((∀ m, m < 10 → ¬ |bts ((resolveStep bts avg target)^[m]
        (initialGuess avg target latestNum latestTs)) - target| ≤ 30) →
      findBlockForTimestamp bts avg target latestNum latestTs =
        (resolveStep bts avg target)^[10] (initialGuess avg target latestNum latestTs)) :=
  resolveLoop_iterate bts avg target 10 (initialGuess avg target latestNum latestTs)

/-- C7 amended-theorem witness: on the concrete oracle the first iterate is the
first within tolerance, and the resolver returns it. -/
theorem find_block_resolver_behaviour_witness :
    findBlockForTimestamp btsX 20 0 5 35 =
      (resolveStep btsX 20 0)^[1] (initialGuess 20 0 5 35) := by
  apply (find_block_resolver_behaviour btsX 20 0 5 35).1 1 (by norm_num)
  · norm_num [Function.iterate_one, resolveStep, initialGuess, truncQ, btsX,
      max_def, Int.toNat]
  · intro m hm
    interval_cases m
    norm_num [initialGuess, truncQ, btsX, max_def, Int.toNat]

/-! ## Per-run block-lookup memoization (`get_block` and `BLOCK_CACHE`)

The block payload is abstracted by the oracle `ℕ → ℤ` (its timestamp). The run
state tracks the in-memory `BLOCK_CACHE` and the trace of remote queries issued
(`rpc_call("eth_getBlockByNumber", ...)`), in order. -/

/-- Per-run RPC state: the block cache and the list of remotely queried numbers. -/
structure RpcState where
  cache : List (ℕ × ℤ)
  trace : List ℕ
deriving DecidableEq

/-- `get_block` of the backend engines: return the cached block if present,
otherwise query the oracle, record the query, and populate the cache. -/
def getBlockMemo (oracle : ℕ → ℤ) (n : ℕ) (s : RpcState) : ℤ × RpcState :=
  match s.cache.lookup n with
  | some b => (b, s)
  | none => (oracle n, ⟨(n, oracle n) :: s.cache, s.trace ++ [n]⟩)

/-- A run: a sequence of `get_block` calls threaded through the state. -/
def runGetBlocks (oracle : ℕ → ℤ) : List ℕ → RpcState → RpcState
  | [], s => s
  | n :: rest, s => runGetBlocks oracle rest (getBlockMemo oracle n s).2

/-- `get_block` of the top-level `survival_km.py` script: no cache, every call
issues a remote query. -/
def getBlockRoot (oracle : ℕ → ℤ) (n : ℕ) (s : RpcState) : ℤ × RpcState :=
  (oracle n, ⟨s.cache, s.trace ++ [n]⟩)

/-- A run of the uncached top-level `get_block`. -/
def runGetBlocksRoot (oracle : ℕ → ℤ) : List ℕ → RpcState → RpcState
  | [], s => s
  | n :: rest, s => runGetBlocksRoot oracle rest (getBlockRoot oracle n s).2

/-- Invariant of a memoized run: the query trace is duplicate-free and every
traced number is cached. -/
theorem runGetBlocks_invariant (oracle : ℕ → ℤ) :
    ∀ calls s, s.trace.Nodup → (∀ m ∈ s.trace, (s.cache.lookup m).isSome) →
      (runGetBlocks oracle calls s).trace.Nodup ∧
      (∀ m ∈ (runGetBlocks oracle calls s).trace,
        ((runGetBlocks oracle calls s).cache.lookup m).isSome) := by
  intro calls
  induction calls with
  | nil => exact fun s h1 h2 => ⟨h1, h2⟩
  | cons n rest ih =>
    intro s h1 h2
    cases hlook : s.cache.lookup n with
    | some b =>
      have : (getBlockMemo oracle n s).2 = s := by simp [getBlockMemo, hlook]
      simpa [runGetBlocks, this] using ih s h1 h2
    | none =>
      have hn : n ∉ s.trace := by
        intro hmem
        have := h2 n hmem
        rw [hlook] at this
        simp at this
      have hstep : (getBlockMemo oracle n s).2 =
          ⟨(n, oracle n) :: s.cache, s.trace ++ [n]⟩ := by
        simp [getBlockMemo, hlook]
      rw [runGetBlocks, hstep]
      apply ih
      · simp [List.nodup_append, h1, hn]
      · intro m hm
        rcases List.mem_append.mp hm with hm' | hm'
        · by_cases hmn : m = n
          · subst hmn
            simp [List.lookup]
          · have hne : (m == n) = false := beq_eq_false_iff_ne.mpr hmn
            rw [show ((n, oracle n) :: s.cache).lookup m = s.cache.lookup m from by
              simp [List.lookup, hne]]
            exact h2 m hm'
        · obtain rfl : m = n := by simpa using hm'
          simp [List.lookup]

/-- C8 amended theorem: in the backend engines, a run starting from an empty
cache issues at most one remote query per block number, and a `get_block` call
whose number is already cached returns the memoized block with the state
unchanged (no remote query). -/
theorem block_lookup_memoized (oracle : ℕ → ℤ) (calls : List ℕ) (n : ℕ) :
    (runGetBlocks oracle calls ⟨[], []⟩).trace.count n ≤ 1 ∧
    (∀ s : RpcState, ∀ b : ℤ, s.cache.lookup n = some b →
      getBlockMemo oracle n s = (b, s)) := by
  constructor
  · have h := (runGetBlocks_invariant oracle calls ⟨[], []⟩ (by simp) (by simp)).1
    exact List.nodup_iff_count_le_one.mp h n
  · intro s b hlook
    simp [getBlockMemo, hlook]

/-- C8 amended-theorem witness: a concrete run with a repeated block number
queries it once, and a cache hit leaves the state unchanged. -/
theorem block_lookup_memoized_witness :
    (runGetBlocks (fun _ => 99) [7, 7, 8] ⟨[], []⟩).trace.count 7 ≤ 1 ∧
    getBlockMemo (fun _ => 99) 7 ⟨[(7, 99)], [7]⟩ = (99, ⟨[(7, 99)], [7]⟩) :=
  ⟨(block_lookup_memoized (fun _ => 99) [7, 7, 8] 7).1,
    (block_lookup_memoized (fun _ => 99) [] 7).2 ⟨[(7, 99)], [7]⟩ 99 (by decide)⟩

/-- C8 counterexample: the top-level script's `get_block` has no cache — looking
up block 7 twice issues two remote queries, violating the at-most-one claim for
that variant. -/
theorem root_get_block_not_memoized :
    (runGetBlocksRoot (fun _ => 99) [7, 7] ⟨[], []⟩).trace.count 7 = 2 := by decide

/-- C2 witness: the boundary metrics `(km, total, full) = (0.6, 200, 100)` are
accepted; lowering `count_total` to 199 alone flips the status to rejected. -/
theorem recommendation_gating_witness :
    (recFromMetrics ⟨100, 6, 200, 100, none, 0.6, -100, 100⟩).status = "ACCEPTED" ∧
    (recFromMetrics ⟨100, 6, 199, 100, none, 0.6, -100, 100⟩).status = "REJECTED" := by
  constructor
  · exact (recommendation_gating _).1.mpr ⟨by norm_num, by norm_num, by norm_num⟩
  · have h := recommendation_gating (⟨100, 6, 199, 100, none, 0.6, -100, 100⟩ : Metrics)
    rcases h.2.1 with hacc | hrej
    · have := (h.1.mp hacc).2.1
      norm_num at this
    · exact hrej
